import Mathlib

/-!
Verification of the world-graph resolver (src/main.rs).

The pure data model (`Pair`, `Triple`, `Pair.canonical`), the context builder
(`get_examples`), the prompt compiler (`prompt`), the consensus reduction
(`consensus`, the call fan-out of `conjure`) and the orchestrator (`wander`)
are translated directly from the source.  Database and network I/O are
abstracted into an environment record (`Env`) recording the outcome of each
external operation for the request under consideration, and the side effects
a request performs (oracle calls, store inserts) are returned as an explicit
trace of `Effect`s alongside the result.
-/

namespace WorldGraph

/-- `struct Triple \x7b a: String, b: String, c: String \x7d` — a persisted fact. -/
structure Triple where
  a : String
  b : String
  c : String
deriving DecidableEq

/-- `struct Pair \x7b a: String, b: String \x7d` — an operand pair. -/
structure Pair where
  a : String
  b : String
deriving DecidableEq

/-- `Pair::canonical`: swap the fields when `a < b`.  Rust compares `String`s
bytewise; on valid UTF-8 that coincides with the codepoint-lexicographic
order used by Lean's `String` order. -/
def Pair.canonical (p : Pair) : Pair :=
  if p.a < p.b then { a := p.b, b := p.a } else p

/-- `impl From<Triple> for Pair`. -/
def Pair.ofTriple (t : Triple) : Pair :=
  { a := t.a, b := t.b }

/-- `enum Strategy \x7b Simple, Sample(u8) \x7d`; the `u8` payload is modelled
as `Nat`. -/
inductive Strategy where
  | simple
  | sample (n : Nat)
deriving DecidableEq

/-- `struct AppError \x7b error: String \x7d`. -/
structure AppError where
  error : String
deriving DecidableEq

/-- Outcome of a failed store operation: `sqlx` reports a missing row
(`RowNotFound`) and genuine I/O failures through the same error value, and
the orchestrator never inspects which one occurred.  Both kinds are kept
distinguishable here so that the uniform treatment can be stated. -/
inductive StoreErr where
  | notFound
  | ioError (msg : String)
deriving DecidableEq

/-- The message carried into `AppError` when a store error is surfaced. -/
def StoreErr.message : StoreErr → String
  | .notFound => "Failed to fetch from db"
  | .ioError m => m

/-- One request's view of the external world: the stored row for the canonical
pair (`get_triple`), the rows matching each operand (`find_triples` on
`pair.a` and on `pair.b`), the raw oracle response for each issued completion
call (indexed by the prompt text and the call number), and the outcome of
`insert_triple`. -/
structure Env where
  getRes : Except StoreErr Triple
  findA : Except StoreErr (List Triple)
  findB : Except StoreErr (List Triple)
  oracle : String → Nat → Except String String
  insertRes : Except String Unit

/-- The observable side effects a request performs, in order. -/
inductive Effect where
  | oracleCall (i : Nat)
  | insertCall (a b c : String)
deriving DecidableEq

/-- `const UNDEF: &str = "undefined"`. -/
def UNDEF : String := "undefined"

/-- The text of the fixed narrative template `PROMPT` up to (and including)
the line break before the examples placeholder. -/
def PROMPT_before_examples : String :=
  "\nWelcome to the World Graph game!\n\nThe core idea of World Graph is to explore relationships.\nWe do this in an algebraic way. Specifically the addition operation.\n\nWhen two things are combined with `+` we get a third thing.\n\nFor example:\n% King + Woman = Queen\n% Water + Fire = Steam\n\nAddition is commutative, so the order of the things does not matter.\n% King + Woman = Queen\n% Woman + King = Queen\n\nNot all combinations are sensible, these are undefined.\n% Moss + Karl Marx = undefined\n% Nuclear + Lipstick = undefined\n\nUsing adjectives or adverbs is generally undesirable:\nBAD:\n% Sand + Water = Wet Sand\nGOOD:\n% Sand + Water = Mud\nBAD:\n% Water + Sea = More Water\nGOOD:\n% Water + Sea = Ocean\n\nResults never contain prose:\nBAD:\n% Fire + Water = A hot steam vapour\nGOOD:\n% Fire + Water = Steam\nBAD:\n% Knowledge + Power = The ability to control people\nGOOD:\n% Knowledge + Power = Wisdom\n\nResults never grow nominally:\nBAD:\n% Planet + Planet = Two Planets\nGOOD:\n% Planet + Planet = Solar System\n\nCountless interesting combinations are possible, and we are just scratching the surface.\nIn World Graph, you\x27re only limited by your imagination.\n\nYou\x27ll soon realize that the game is not about the result, but the journey to get there.\nExciting relationships will be discovered, and you\x27ll be surprised by the results.\n\nFor example, you\x27ll discover intriguing examples like:\n"

/-- `fn prompt`: render `PROMPT` with the pair and the examples block
substituted.  For this fixed, well-formed template the TinyTemplate render
cannot fail, so rendering is total here. -/
def prompt (a b examples : String) : String :=
  PROMPT_before_examples ++ examples ++ "\n% " ++ a ++ " + " ++ b ++ " ="

/-- `fn process_result`: trim surrounding whitespace from a raw response. -/
def process_result (s : String) : String :=
  s.trim

/-- `Vec::dedup`: remove consecutive repeated elements, keeping the first
element of each run. -/
def dedupConsec : List Triple → List Triple
  | [] => []
  | [x] => [x]
  | x :: y :: rest =>
    if x = y then dedupConsec (y :: rest) else x :: dedupConsec (y :: rest)

/-- `fn get_examples`: take at most 5 rows matching each operand (in the
order `pair.a` then `pair.b`), concatenate, drop consecutive duplicates,
render each row as `"% a + b = c"` and join the lines with newlines. -/
def get_examples (env : Env) (pair : Pair) : Except AppError String := do
  let tsa ← (env.findA.mapError fun e => { error := e.message : AppError }).map (List.take 5)
  let tsb ← (env.findB.mapError fun e => { error := e.message : AppError }).map (List.take 5)
  let merged := dedupConsec (tsa ++ tsb)
  return String.intercalate "\n"
    (merged.map fun x => "% " ++ x.a ++ " + " ++ x.b ++ " = " ++ x.c)

/-- `fn completion`: one oracle call; a successful raw response is passed
through `process_result`. -/
def completion (env : Env) (p : String) (i : Nat) : Except String String :=
  (env.oracle p i).map process_result

/-- The Rust iterator `lo..hi` as a list of indices. -/
def rustRange (lo hi : Nat) : List Nat :=
  List.range' lo (hi - lo)

/-- One step of `Iterator::max_by_key`: keep the element with the larger key,
preferring the later one on ties. -/
def pickStep (f : String → Nat) (acc : Option String) (k : String) : Option String :=
  match acc with
  | none => some k
  | some b => if f b ≤ f k then some k else some b

/-- `Iterator::max_by_key` over the tally entries of the `counts` map.  The
`HashMap` iteration order is unspecified in the source; entries are modelled
here in `List.dedup` order (any fixed order is a refinement, and ties are
implementation-defined either way). -/
def pickMaxBy (f : String → Nat) (l : List String) : Option String :=
  l.foldl (pickStep f) none

/-- The consensus reduction of the Sample branch of `conjure`: tally the
successful responses, pick an entry with maximal count, and fall back to
`UNDEF` when the pool is empty (`unwrap_or_else`). -/
def consensus (gens : List String) : String :=
  match pickMaxBy (fun g => gens.count g) gens.dedup with
  | some c => c
  | none => UNDEF

/-- The pool of successful responses gathered by the Sample branch: the
`(1..n)` fan-out of `completion` calls, keeping the `Ok` results
(`filter_map(Result::ok)`). -/
def sampledGens (env : Env) (p : String) (n : Nat) : List String :=
  ((rustRange 1 n).map (completion env p)).filterMap Except.toOption

/-- The oracle-call indices each strategy issues: the single call of Simple,
and the `(1..n)` fan-out of Sample. -/
def callIndices : Strategy → List Nat
  | .simple => [0]
  | .sample n => rustRange 1 n

/-- The answer computed by the configured strategy in `conjure`: Simple
propagates a failed call, Sample reduces the successful pool by consensus. -/
def conjureAnswer (env : Env) (p : String) : Strategy → Except AppError String
  | .simple => (completion env p 0).mapError fun m => { error := m }
  | .sample n => .ok (consensus (sampledGens env p n))

/-- `fn conjure`: build the examples block, compile the prompt, run the
strategy against the oracle, persist the answer via `insert_triple` (a
failure there propagates), and return the triple built from the (already
canonical) pair.  The second component is the effect trace. -/
def conjure (env : Env) (strategy : Strategy) (pair : Pair) :
    Except AppError Triple × List Effect :=
  match get_examples env pair with
  | .error e => (.error e, [])
  | .ok examples =>
    match conjureAnswer env (prompt pair.a pair.b examples) strategy with
    | .error e => (.error e, (callIndices strategy).map Effect.oracleCall)
    | .ok c =>
      match env.insertRes with
      | .error m =>
        (.error { error := m },
          (callIndices strategy).map Effect.oracleCall ++ [.insertCall pair.a pair.b c])
      | .ok _ =>
        (.ok { a := pair.a, b := pair.b, c := c },
          (callIndices strategy).map Effect.oracleCall ++ [.insertCall pair.a pair.b c])

/-- `fn wander`: canonicalize the request pair, look it up; on any lookup
failure fall through to `conjure`.  A hit performs no further effects. -/
def wander (env : Env) (strategy : Strategy) (req : Pair) :
    Except AppError Triple × List Effect :=
  match env.getRes with
  | .ok triple => (.ok triple, [])
  | .error _ => conjure env strategy req.canonical

/-- Whether an effect is an oracle call. -/
def Effect.isOracleCall : Effect → Bool
  | .oracleCall _ => true
  | .insertCall _ _ _ => false

/-- Number of oracle calls recorded in an effect trace. -/
def oracleCallCount (tr : List Effect) : Nat :=
  (tr.filter Effect.isOracleCall).length

/-- Modelled from the spec (wording of claim C7): one fact rendered as a line
of the exact form `a + b = c`, with no prefix character. -/
def claimRenderFact (t : Triple) : String :=
  t.a ++ " + " ++ t.b ++ " = " ++ t.c

/-- Modelled from the spec (wording of claim C7): the context string with the
claimed line form. -/
def claimContext (la lb : List Triple) : String :=
  String.intercalate "\n" ((dedupConsec (la.take 5 ++ lb.take 5)).map claimRenderFact)

/-- The context string with the line form the source actually uses, each line
carrying the leading `"% "` of the format string. -/
def amendedContext (la lb : List Triple) : String :=
  String.intercalate "\n"
    ((dedupConsec (la.take 5 ++ lb.take 5)).map fun t =>
      "% " ++ t.a ++ " + " ++ t.b ++ " = " ++ t.c)

/-- A concrete miss environment: lookup fails, no context rows, every oracle
call fails, insert succeeds. -/
def envMissFail : Env :=
  { getRes := .error .notFound
    findA := .ok []
    findB := .ok []
    oracle := fun _ _ => .error "connection refused"
    insertRes := .ok () }

/-- A concrete miss environment with one context row for the first operand. -/
def envExamples : Env :=
  { getRes := .error .notFound
    findA := .ok [⟨"x", "y", "z"⟩]
    findB := .ok []
    oracle := fun _ _ => .error "connection refused"
    insertRes := .ok () }

/-- After canonicalization the second field never exceeds the first. -/
theorem canonical_b_le_a (p : Pair) : p.canonical.b ≤ p.canonical.a := by
  unfold Pair.canonical
  by_cases h : p.a < p.b
  · rw [if_pos h]
    exact le_of_lt h
  · rw [if_neg h]
    exact le_of_not_lt h

/-- An `insertCall` effect never occurs among mapped oracle-call effects. -/
theorem insertCall_not_mem_oracleTrace (l : List Nat) (a b c : String) :
    Effect.insertCall a b c ∉ l.map Effect.oracleCall := by
  intro h
  obtain ⟨i, _, hi⟩ := List.mem_map.mp h
  simp at hi

/-- Folding `pickStep` from a present accumulator yields a maximizer of the
key over the accumulator and the traversed list. -/
theorem foldl_pickStep_spec (f : String → Nat) :
    ∀ (l : List String) (b : String),
      ∃ m, l.foldl (pickStep f) (some b) = some m ∧ (m = b ∨ m ∈ l) ∧
        f b ≤ f m ∧ ∀ x ∈ l, f x ≤ f m := by
  intro l
  induction l with
  | nil =>
    intro b
    exact ⟨b, rfl, Or.inl rfl, le_refl _, by simp⟩
  | cons k rest ih =>
    intro b
    by_cases h : f b ≤ f k
    · obtain ⟨m, hm, hmem, hle, hall⟩ := ih k
      refine ⟨m, ?_, ?_, ?_, ?_⟩
      · simpa [List.foldl_cons, pickStep, h] using hm
      · rcases hmem with rfl | hmem
        · exact Or.inr (List.mem_cons_self _ _)
        · exact Or.inr (List.mem_cons_of_mem _ hmem)
      · exact le_trans h hle
      · intro x hx
        rcases List.mem_cons.mp hx with rfl | hx'
        · exact hle
        · exact hall x hx'
    · obtain ⟨m, hm, hmem, hle, hall⟩ := ih b
      refine ⟨m, ?_, ?_, ?_, ?_⟩
      · simpa [List.foldl_cons, pickStep, h] using hm
      · rcases hmem with rfl | hmem
        · exact Or.inl rfl
        · exact Or.inr (List.mem_cons_of_mem _ hmem)
      · exact hle
      · intro x hx
        rcases List.mem_cons.mp hx with rfl | hx'
        · exact le_trans (le_of_lt (lt_of_not_le h)) hle
        · exact hall x hx'

/-- On a non-empty list, `pickMaxBy` returns an element whose key is maximal. -/
theorem pickMaxBy_spec (f : String → Nat) (l : List String) (hne : l ≠ []) :
    ∃ m, pickMaxBy f l = some m ∧ m ∈ l ∧ ∀ x ∈ l, f x ≤ f m := by
  cases l with
  | nil => exact absurd rfl hne
  | cons k rest =>
    obtain ⟨m, hm, hmem, hle, hall⟩ := foldl_pickStep_spec f rest k
    refine ⟨m, ?_, ?_, ?_⟩
    · simpa [pickMaxBy, List.foldl_cons, pickStep] using hm
    · rcases hmem with rfl | hmem
      · exact List.mem_cons_self _ _
      · exact List.mem_cons_of_mem _ hmem
    · intro x hx
      rcases List.mem_cons.mp hx with rfl | hx'
      · exact hle
      · exact hall x hx'

/-- C1: canonicalization is order-independent and idempotent: for all strings
x and y, `canonical ⟨x, y⟩ = canonical ⟨y, x⟩`, and applying `canonical` to an
already-canonical pair leaves it unchanged. -/
theorem canonical_comm_idem :
    (∀ x y : String, Pair.canonical ⟨x, y⟩ = Pair.canonical ⟨y, x⟩) ∧
    (∀ p : Pair, p.canonical.canonical = p.canonical) := by
  constructor
  · intro x y
    unfold Pair.canonical
    rcases lt_trichotomy x y with h | rfl | h
    · rw [if_pos h, if_neg (not_lt_of_gt h)]
    · rfl
    · rw [if_neg (not_lt_of_gt h), if_pos h]
  · intro p
    have h := canonical_b_le_a p
    conv_lhs => rw [Pair.canonical]
    rw [if_neg (not_lt.mpr h)]

/-- C9: for all strings x and y, `canonical ⟨x, y⟩` holds the lexicographically
greater string in field a and the lesser in field b; equal inputs are left
unchanged. -/
theorem canonical_max_min :
    (∀ x y : String, Pair.canonical ⟨x, y⟩ = ⟨max x y, min x y⟩) ∧
    (∀ x : String, Pair.canonical ⟨x, x⟩ = ⟨x, x⟩) := by
  constructor
  · intro x y
    unfold Pair.canonical
    rcases le_or_lt y x with h | h
    · rw [if_neg (not_lt.mpr h)]
      simp [max_eq_left h, min_eq_right h]
    · rw [if_pos h]
      simp [max_eq_right (le_of_lt h), min_eq_left (le_of_lt h)]
  · intro x
    unfold Pair.canonical
    rw [if_neg (lt_irrefl x)]

/-- C4: when the lookup for the canonical pair succeeds, the resolver returns
the stored triple unchanged and performs no oracle call and no insert (the
empty effect trace), whatever the stored value — the sentinel included. -/
theorem wander_hit (env : Env) (strategy : Strategy) (req : Pair) (t : Triple) :
    wander { env with getRes := .ok t } strategy req = (.ok t, []) := rfl

/-- C8: any lookup failure — a missing row or an I/O failure — is treated
identically as a miss: the resolver proceeds to context building and
generation on the canonical pair, with a result independent of the failure
kind. -/
theorem wander_miss_uniform (env : Env) (strategy : Strategy) (req : Pair)
    (e₁ e₂ : StoreErr) :
    wander { env with getRes := .error e₁ } strategy req
      = conjure env strategy req.canonical ∧
    wander { env with getRes := .error e₁ } strategy req
      = wander { env with getRes := .error e₂ } strategy req :=
  ⟨rfl, rfl⟩

/-- C6: for every non-empty pool of successful responses, the consensus
answer is one of the responses and its occurrence count is at least the count
of every other response. -/
theorem consensus_spec (gens : List String) (hne : gens ≠ []) :
    consensus gens ∈ gens ∧
    ∀ x : String, gens.count x ≤ gens.count (consensus gens) := by
  have hd : gens.dedup ≠ [] := by
    simpa [List.dedup_eq_nil] using hne
  obtain ⟨m, hm, hmem, hall⟩ := pickMaxBy_spec (fun g => gens.count g) gens.dedup hd
  have hc : consensus gens = m := by
    simp [consensus, hm]
  constructor
  · rw [hc]
    exact List.mem_dedup.mp hmem
  · intro x
    rw [hc]
    by_cases hx : x ∈ gens
    · exact hall x (List.mem_dedup.mpr hx)
    · simp [List.count_eq_zero_of_not_mem hx]

/-- C6 witness: a concrete three-element pool; the majority answer "a" is in
the pool and its count dominates. -/
theorem consensus_spec_witness :
    (["a", "b", "a"] : List String) ≠ [] ∧
    (consensus ["a", "b", "a"] ∈ (["a", "b", "a"] : List String) ∧
     ∀ x : String,
       (["a", "b", "a"] : List String).count x
         ≤ (["a", "b", "a"] : List String).count (consensus ["a", "b", "a"])) :=
  ⟨by decide, consensus_spec ["a", "b", "a"] (by decide)⟩

/-- C10: every insert the resolver performs uses canonical keys — the first
operand of an inserted row is at least the second in string order. -/
theorem insert_canonical (env : Env) (strategy : Strategy) (req : Pair)
    (a b c : String) (h : Effect.insertCall a b c ∈ (wander env strategy req).2) :
    b ≤ a := by
  unfold wander at h
  split at h
  · simp at h
  · unfold conjure at h
    split at h
    · simp at h
    · split at h
      · exact absurd h (insertCall_not_mem_oracleTrace _ _ _ _)
      · split at h
        · rcases List.mem_append.mp h with h' | h'
          · exact absurd h' (insertCall_not_mem_oracleTrace _ _ _ _)
          · have heq := List.mem_singleton.mp h'
            injection heq with h1 h2 h3
            rw [h2, h1]
            exact canonical_b_le_a req
        · rcases List.mem_append.mp h with h' | h'
          · exact absurd h' (insertCall_not_mem_oracleTrace _ _ _ _)
          · have heq := List.mem_singleton.mp h'
            injection heq with h1 h2 h3
            rw [h2, h1]
            exact canonical_b_le_a req

/-- C10 witness: a concrete miss on the request ⟨"a", "b"⟩ inserts the
canonical row ("b", "a", "undefined"), and indeed "a" ≤ "b". -/
theorem insert_canonical_witness :
    Effect.insertCall "b" "a" "undefined" ∈ (wander envMissFail (.sample 0) ⟨"a", "b"⟩).2 ∧
    ("a" : String) ≤ "b" := by
  have hcan : Pair.canonical ⟨"a", "b"⟩ = ⟨"b", "a"⟩ := by
    have hlt : ("a" : String) < "b" := by
      rw [String.lt_iff_toList_lt]
      decide
    unfold Pair.canonical
    rw [if_pos hlt]
  have hw : (wander envMissFail (.sample 0) ⟨"a", "b"⟩).2
      = (conjure envMissFail (.sample 0) (Pair.canonical ⟨"a", "b"⟩)).2 := rfl
  have hmem : Effect.insertCall "b" "a" "undefined"
      ∈ (wander envMissFail (.sample 0) ⟨"a", "b"⟩).2 := by
    rw [hw, hcan]
    decide
  exact ⟨hmem,
    insert_canonical envMissFail (.sample 0) ⟨"a", "b"⟩ "b" "a" "undefined" hmem⟩

/-- C5: on a miss, the computed answer is persisted before anything is
returned: an insert failure makes the request fail, and a successful result
carries the canonical operand values and corresponds to a performed insert of
exactly that triple. -/
theorem wander_persist (env : Env) (strategy : Strategy) (req : Pair)
    (e : StoreErr) (hmiss : env.getRes = .error e) :
    (∀ m, env.insertRes = .error m →
      ∃ ae, (wander env strategy req).1 = .error ae) ∧
    (∀ t, (wander env strategy req).1 = .ok t →
      t.a = req.canonical.a ∧ t.b = req.canonical.b ∧
      Effect.insertCall req.canonical.a req.canonical.b t.c
        ∈ (wander env strategy req).2 ∧
      env.insertRes = .ok ()) := by
  have hw : wander env strategy req = conjure env strategy req.canonical := by
    unfold wander
    rw [hmiss]
  rw [hw]
  cases hex : get_examples env req.canonical with
  | error e2 =>
    have hc : conjure env strategy req.canonical = (.error e2, []) := by
      unfold conjure
      rw [hex]
    rw [hc]
    constructor
    · intro m _
      exact ⟨e2, rfl⟩
    · intro t ht
      cases ht
  | ok ex =>
    cases hca : conjureAnswer env (prompt req.canonical.a req.canonical.b ex) strategy with
    | error e3 =>
      have hc : conjure env strategy req.canonical
          = (.error e3, (callIndices strategy).map Effect.oracleCall) := by
        simp only [conjure, hex, hca]
      rw [hc]
      constructor
      · intro m _
        exact ⟨e3, rfl⟩
      · intro t ht
        cases ht
    | ok c =>
      cases hins : env.insertRes with
      | error m =>
        have hc : conjure env strategy req.canonical
            = (.error { error := m },
                (callIndices strategy).map Effect.oracleCall
                  ++ [.insertCall req.canonical.a req.canonical.b c]) := by
          simp only [conjure, hex, hca, hins]
        rw [hc]
        constructor
        · intro m2 _
          exact ⟨{ error := m }, rfl⟩
        · intro t ht
          cases ht
      | ok u =>
        have hc : conjure env strategy req.canonical
            = (.ok { a := req.canonical.a, b := req.canonical.b, c := c },
                (callIndices strategy).map Effect.oracleCall
                  ++ [.insertCall req.canonical.a req.canonical.b c]) := by
          simp only [conjure, hex, hca, hins]
        rw [hc]
        constructor
        · intro m hm
          simp at hm
        · intro t ht
          have ht' : t = { a := req.canonical.a, b := req.canonical.b, c := c } := by
            cases ht
            rfl
          subst ht'
          refine ⟨rfl, rfl, ?_, ?_⟩
          · exact List.mem_append_right _ (List.mem_singleton.mpr rfl)
          · rfl

/-- C5 witness: on a concrete miss with a succeeding insert, the resolver
answers with the canonical operands and a matching insert is in the trace. -/
theorem wander_persist_witness :
    envMissFail.getRes = .error .notFound ∧
    ((∀ m, envMissFail.insertRes = .error m →
       ∃ ae, (wander envMissFail (.sample 0) ⟨"a", "b"⟩).1 = .error ae) ∧
     (∀ t, (wander envMissFail (.sample 0) ⟨"a", "b"⟩).1 = .ok t →
       t.a = (Pair.canonical ⟨"a", "b"⟩).a ∧ t.b = (Pair.canonical ⟨"a", "b"⟩).b ∧
       Effect.insertCall (Pair.canonical ⟨"a", "b"⟩).a (Pair.canonical ⟨"a", "b"⟩).b t.c
         ∈ (wander envMissFail (.sample 0) ⟨"a", "b"⟩).2 ∧
       envMissFail.insertRes = .ok ())) :=
  ⟨rfl, wander_persist envMissFail (.sample 0) ⟨"a", "b"⟩ .notFound rfl⟩

/-- `Except.toOption` commutes with `Except.map`. -/
theorem toOption_map {ε α β : Type} (f : α → β) (e : Except ε α) :
    (e.map f).toOption = e.toOption.map f := by
  cases e <;> rfl

/-- When every issued call fails, the Sample pool is empty. -/
theorem sampledGens_eq_nil (env : Env) (p : String) (n : Nat)
    (hfail : ∀ i ∈ rustRange 1 n, (env.oracle p i).toOption = none) :
    sampledGens env p n = [] := by
  unfold sampledGens
  rw [List.filterMap_eq_nil_iff]
  intro r hr
  obtain ⟨i, hi, rfl⟩ := List.mem_map.mp hr
  unfold completion
  rw [toOption_map, hfail i hi]
  rfl

/-- C3: in Sampled mode, when every issued oracle call fails the resolved
answer is the sentinel "undefined"; the triple with the sentinel is inserted
and returned like any other result. -/
theorem conjure_all_fail (env : Env) (pair : Pair) (n : Nat) (ex : String)
    (hex : get_examples env pair = .ok ex)
    (hfail : ∀ i ∈ rustRange 1 n,
      (env.oracle (prompt pair.a pair.b ex) i).toOption = none)
    (hins : env.insertRes = .ok ()) :
    conjure env (.sample n) pair =
      (.ok { a := pair.a, b := pair.b, c := UNDEF },
        (rustRange 1 n).map Effect.oracleCall
          ++ [.insertCall pair.a pair.b UNDEF]) := by
  have hpool : sampledGens env (prompt pair.a pair.b ex) n = [] :=
    sampledGens_eq_nil env (prompt pair.a pair.b ex) n hfail
  have hans : conjureAnswer env (prompt pair.a pair.b ex) (.sample n)
      = .ok UNDEF := by
    simp only [conjureAnswer, hpool]
    rfl
  simp only [conjure, hex, hans, hins, callIndices]

/-- C3 witness: with three configured samples and an unreachable oracle, the
concrete miss environment produces the persisted sentinel triple. -/
theorem conjure_all_fail_witness :
    get_examples envMissFail ⟨"b", "a"⟩ = .ok "" ∧
    envMissFail.insertRes = .ok () ∧
    conjure envMissFail (.sample 3) ⟨"b", "a"⟩ =
      (.ok { a := "b", b := "a", c := UNDEF },
        [Effect.oracleCall 1, Effect.oracleCall 2,
         Effect.insertCall "b" "a" UNDEF]) := by
  refine ⟨rfl, rfl, ?_⟩
  have h := conjure_all_fail envMissFail ⟨"b", "a"⟩ 3 "" rfl (fun i _ => rfl) rfl
  exact h.trans rfl

/-- The oracle-call count of a fan-out trace followed by one insert is the
number of fan-out indices. -/
theorem oracleCallCount_trace (l : List Nat) (a b c : String) :
    oracleCallCount (l.map Effect.oracleCall ++ [Effect.insertCall a b c])
      = l.length := by
  unfold oracleCallCount
  rw [List.filter_append, List.filter_map]
  simp [Effect.isOracleCall]

/-- C2 counterexample: with configured count 0, the Sample strategy issues 0
oracle calls — the number of calls equals the configured count, refuting
"the configured count itself is never the number of calls made". -/
theorem sample_zero_calls_cex :
    oracleCallCount ((conjure envMissFail (.sample 0) ⟨"b", "a"⟩).2) = 0 := by
  decide

/-- C2 amended: for every configured count n ≥ 1 the Sample strategy issues
exactly n - 1 completion calls and never n (in particular 2 calls for n = 3);
for n = 0 it issues 0 calls, which coincides with the configured count. -/
theorem sample_call_count (env : Env) (pair : Pair) (n : Nat) (ex : String)
    (hex : get_examples env pair = .ok ex) (hn : 1 ≤ n) :
    oracleCallCount ((conjure env (.sample n) pair).2) = n - 1 ∧
    oracleCallCount ((conjure env (.sample n) pair).2) ≠ n := by
  have htr : (conjure env (.sample n) pair).2
      = (rustRange 1 n).map Effect.oracleCall
          ++ [Effect.insertCall pair.a pair.b
                (consensus (sampledGens env (prompt pair.a pair.b ex) n))] := by
    cases hins : env.insertRes with
    | error m => simp only [conjure, hex, conjureAnswer, hins, callIndices]
    | ok u => simp only [conjure, hex, conjureAnswer, hins, callIndices]
  rw [htr, oracleCallCount_trace]
  unfold rustRange
  rw [List.length_range']
  omega

/-- C2 witness: at the default configured count 3 the strategy issues exactly
2 calls, not 3. -/
theorem sample_call_count_witness :
    get_examples envMissFail ⟨"b", "a"⟩ = .ok "" ∧ 1 ≤ 3 ∧
    (oracleCallCount ((conjure envMissFail (.sample 3) ⟨"b", "a"⟩).2) = 3 - 1 ∧
     oracleCallCount ((conjure envMissFail (.sample 3) ⟨"b", "a"⟩).2) ≠ 3) :=
  ⟨rfl, by decide,
    sample_call_count envMissFail ⟨"b", "a"⟩ 3 "" rfl (by decide)⟩

/-- Consecutive dedup never lengthens a list. -/
theorem dedupConsec_length_le (l : List Triple) :
    (dedupConsec l).length ≤ l.length := by
  induction l with
  | nil => simp [dedupConsec]
  | cons x xs ih =>
    cases xs with
    | nil => simp [dedupConsec]
    | cons y rest =>
      by_cases h : x = y
      · rw [dedupConsec, if_pos h]
        exact le_trans ih (by simp)
      · rw [dedupConsec, if_neg h]
        simpa using ih

/-- C7 counterexample: the source renders the line "% x + y = z" for the
stored fact (x, y, z), not the claimed form "x + y = z". -/
theorem get_examples_cex :
    get_examples envExamples ⟨"p", "q"⟩ = .ok "% x + y = z" ∧
    claimContext [⟨"x", "y", "z"⟩] [] = "x + y = z" ∧
    ("% x + y = z" : String) ≠ "x + y = z" :=
  ⟨rfl, rfl, by decide⟩

/-- C7 amended: the context takes at most 5 facts from each operand lookup in
order (at most 10 entries), removes only consecutive duplicates, and renders
each surviving fact as one line of the form "% a + b = c". -/
theorem get_examples_spec (env : Env) (pair : Pair) (la lb : List Triple)
    (ha : env.findA = .ok la) (hb : env.findB = .ok lb) :
    get_examples env pair = .ok (amendedContext la lb) ∧
    (dedupConsec (la.take 5 ++ lb.take 5)).length ≤ 10 := by
  constructor
  · simp only [get_examples, ha, hb, amendedContext]
    rfl
  · refine le_trans (dedupConsec_length_le _) ?_
    have h5a : (la.take 5).length ≤ 5 := by
      simpa using List.length_take_le 5 la
    have h5b : (lb.take 5).length ≤ 5 := by
      simpa using List.length_take_le 5 lb
    rw [List.length_append]
    omega

/-- C7 witness: on the concrete one-row environment the source context equals
the amended rendering, and the pre-dedup bound holds. -/
theorem get_examples_spec_witness :
    envExamples.findA = .ok [⟨"x", "y", "z"⟩] ∧ envExamples.findB = .ok [] ∧
    (get_examples envExamples ⟨"p", "q"⟩
       = .ok (amendedContext [⟨"x", "y", "z"⟩] []) ∧
     (dedupConsec (([⟨"x", "y", "z"⟩] : List Triple).take 5
        ++ ([] : List Triple).take 5)).length ≤ 10) :=
  ⟨rfl, rfl, get_examples_spec envExamples ⟨"p", "q"⟩ _ _ rfl rfl⟩
